import Mathlib

/-!
Verification development for the `aasw.py` newsletter generator.

The Python source is shallowly embedded below.  Strings are modelled as
Lean `String` (a list of characters, matching Python's code-point
indexing), regex scans are translated into explicit character scanners
that reproduce the source regexes' backtracking semantics, and the
`ValueError` raises are modelled by `Except String` / an error outcome.
Each definition carries a comment naming the source construct it embeds.
-/

namespace Aasw

/-- Python `\s` on the ASCII range (`re` whitespace: space, tab, newline,
carriage return, vertical tab, form feed).  The newsletter inputs are
ASCII text, so the Unicode extras of Python's `\s` are not modelled. -/
def pyIsSpace (c : Char) : Bool :=
  c = ' ' || c = '\t' || c = '\n' || c = '\r' || c = '\x0b' || c = '\x0c'

/-- Python `\w` on the ASCII range: letters, digits and underscore. -/
def isWordChar (c : Char) : Bool :=
  c.isAlphanum || c = '_'

/-- Membership in the URL-safe character class of `parsedstr.url_regex`,
`[\w/#~:.?+=&%@!\-.:?\\-]` (duplicates removed). -/
def isUrlChar (c : Char) : Bool :=
  isWordChar c || c = '/' || c = '#' || c = '~' || c = ':' || c = '.' ||
    c = '?' || c = '+' || c = '=' || c = '&' || c = '%' || c = '@' ||
    c = '!' || c = '-' || c = '\\'

/-- Membership in the trailing-punctuation class `[.:?\-]` of the
lookahead in `parsedstr.url_regex`. -/
def isTrailPunct (c : Char) : Bool :=
  c = '.' || c = ':' || c = '?' || c = '-'

/-- Escape of one character, following Python `html.escape` (default
`quote=True`): `&`, `<`, `>`, `"` and the apostrophe are replaced. -/
def escChar (c : Char) : String :=
  if c = '&' then "&amp;"
  else if c = '<' then "&lt;"
  else if c = '>' then "&gt;"
  else if c = '"' then "&quot;"
  else if c = '\'' then "&#x27;"
  else String.singleton c

/-- Python `html.escape s` (its successive `str.replace` calls amount to
this character-wise map, since no replacement creates a character that a
later `replace` rewrites). -/
def htmlEscape (s : String) : String :=
  String.join (s.data.map escChar)

/-- A dual-format text node: the `text`/`html` pair carried by every
`texthtmlstr` object and its subclasses. -/
structure Node where
  text : String
  html : String
deriving DecidableEq, Repr

/-- Constructor of class `texthtmlstr`: plain string with escaped HTML. -/
def texthtmlstr (s : String) : Node :=
  { text := s, html := htmlEscape s }

/-- Constructor of class `urlstr` (the optional network check is a side
effect outside the rendering model): anchor-wrapped URL. -/
def urlstr (url : String) : Node :=
  { text := url, html := "<a href=\"" ++ url ++ "\">" ++ url ++ "</a>" }

/-- Constructor of class `parabreakstr`: one or two newlines in text,
fixed paragraph marker in HTML. -/
def parabreakstr (after_single : Bool) : Node :=
  { text := if after_single then "\n" else "\n\n", html := "</p><p>" }

/-- One segment dict of `parsedstr.__init__`:
`{'start':…, 'end':…, 'type':…, 'value':…}` (the `end` key is named
`stop` since `end` is reserved in Lean; `value` is absent for
paragraph-break segments). -/
structure Segment where
  start : Nat
  stop : Nat
  type : String
  value : Option String
deriving DecidableEq, Repr

/-- Python slice `s[a:b]` (character offsets, as in Python). -/
def strSlice (s : String) (a b : Nat) : String :=
  String.mk ((s.data.drop a).take (b - a))

/-- Index of the last newline inside the leading whitespace run of the
list (used for the greedy `\s*` of `parbreak_regex` followed by the
final `\n`): scans while `pyIsSpace`, remembering the last `'\n'`. -/
def lastNlAux : List Char → Nat → Option Nat → Option Nat
  | [], _, acc => acc
  | c :: cs, i, acc =>
      if pyIsSpace c then
        lastNlAux cs (i + 1) (if c = '\n' then some i else acc)
      else acc

/-- Scanner for `re.finditer(parbreak_regex, s)` with
`parbreak_regex = '\n\s*\n'`: at each `'\n'`, the greedy `\s*` with the
required final `'\n'` matches up to the last newline of the following
whitespace run; scanning resumes after the match (non-overlapping
matches, as `finditer` produces). Spans are `(start, stop)` pairs.
The first argument is structural-recursion fuel: each step consumes at
least one character, so fuel `length + 1` (as passed by
`parbreakSegs`) can never run out and the `0` branch is unreachable. -/
def parbreakScanAux : Nat → Nat → List Char → List (Nat × Nat)
  | 0, _, _ => []
  | _, _, [] => []
  | fuel + 1, i, c :: rest =>
      if c = '\n' then
        match lastNlAux rest 0 none with
        | some k =>
            (i, i + k + 2) :: parbreakScanAux fuel (i + k + 2) (rest.drop (k + 1))
        | none => parbreakScanAux fuel (i + 1) rest
      else parbreakScanAux fuel (i + 1) rest

/-- Scheme alternatives of `url_regex`, each with the following colon,
in the regex's alternation order (`https?` tries the `s` first). -/
def schemeList : List String :=
  ["https:", "http:", "telnet:", "gopher:", "file:", "wais:", "ftp:"]

/-- First scheme (with colon) that is a literal prefix of the input,
returning its length. -/
def matchScheme (cs : List Char) : Option Nat :=
  (schemeList.find? (fun p => p.data.isPrefixOf cs)).map (fun p => p.length)

/-- Removal of the maximal trailing run of `[.:?\-]` characters. -/
def dropTrailPunct (l : List Char) : List Char :=
  (l.reverse.dropWhile isTrailPunct).reverse

/-- Scanner for `re.finditer(url_regex, s)`.  The regex is
`\b(scheme):(urlchar)+?(?=[.:?\-]*([^urlchar]|$))`: a word boundary, a
scheme and colon, then a lazy run of URL characters whose lookahead
succeeds exactly when everything from the stop position to the end of
the maximal URL-character run consists of trailing punctuation.  Hence
the match takes the maximal run with its trailing `[.:?\-]` suffix
stripped, but at least one character.  `prev` is the character before
the current position (for `\b`); scanning resumes at the match end.
The first argument is structural-recursion fuel: each step consumes at
least one character, so fuel `length + 1` (as passed by `urlSegs`) can
never run out and the `0` branch is unreachable. -/
def urlScanAux : Nat → Nat → Option Char → List Char → List (Nat × Nat × String)
  | 0, _, _, _ => []
  | _, _, _, [] => []
  | fuel + 1, i, prev, c :: rest =>
      let cs := c :: rest
      let wordOk := match prev with
        | none => true
        | some p => !(isWordChar p)
      if wordOk then
        match matchScheme cs with
        | some sl =>
            let run := (cs.drop sl).takeWhile isUrlChar
            if run.isEmpty then urlScanAux fuel (i + 1) (some c) rest
            else
              let core := dropTrailPunct run
              let tlen := if core.isEmpty then 1 else core.length
              let mlen := sl + tlen
              (i, i + mlen, String.mk (cs.take mlen)) ::
                urlScanAux fuel (i + mlen) (some ((cs.take mlen).getLastD c))
                  (rest.drop (mlen - 1))
        | none => urlScanAux fuel (i + 1) (some c) rest
      else urlScanAux fuel (i + 1) (some c) rest

/-- Paragraph-break segments of `parsedstr.__init__`
(`{'start':…, 'end':…, 'type':'p'}`). -/
def parbreakSegs (s : String) : List Segment :=
  (parbreakScanAux (s.data.length + 1) 0 s.data).map
    (fun sp => ⟨sp.1, sp.2, "p", none⟩)

/-- URL segments of `parsedstr.__init__`
(`{'start':…, 'end':…, 'type':'u', 'value':…}`). -/
def urlSegs (s : String) : List Segment :=
  (urlScanAux (s.data.length + 1) 0 none s.data).map
    (fun sp => ⟨sp.1, sp.2.1, "u", some sp.2.2⟩)

/-- Stable insertion of a segment after all entries whose `start` is not
greater (so the result of `sortByStart` matches Python's stable
`list.sort(key=itemgetter('start'))`). -/
def insertSeg (x : Segment) : List Segment → List Segment
  | [] => [x]
  | y :: ys => if y.start ≤ x.start then y :: insertSeg x ys else x :: y :: ys

/-- Stable sort by `start`, as `segments.sort(key=itemgetter('start'))`. -/
def sortByStart (l : List Segment) : List Segment :=
  l.foldl (fun acc x => insertSeg x acc) []

/-- Gap-filling loop of `parsedstr.__init__`: walks the sorted segments
tracking `current_pos`, appending a `'t'` segment (with the slice of `s`
as its value) for every uncovered range, plus the final gap. -/
def gapSegs (s : String) : Nat → List Segment → List Segment
  | cur, [] =>
      if cur < s.length then [⟨cur, s.length, "t", some (strSlice s cur s.length)⟩]
      else []
  | cur, seg :: rest =>
      (if cur < seg.start then [⟨cur, seg.start, "t", some (strSlice s cur seg.start)⟩]
       else []) ++ gapSegs s seg.stop rest

/-- Resolved segment list of `parsedstr.__init__`: scan for paragraph
breaks then URLs, return the empty list when nothing was found (the
early `return`), otherwise sort, append the gap fillers, and re-sort
(Python appends the gaps to the end of the list and stable-sorts). -/
def resolveSegments (s : String) : List Segment :=
  if (parbreakSegs s ++ urlSegs s).isEmpty then []
  else
    sortByStart (sortByStart (parbreakSegs s ++ urlSegs s) ++
      gapSegs s 0 (sortByStart (parbreakSegs s ++ urlSegs s)))

/-- Python `str.splitlines` line-break characters (`\r\n` is handled as
one break by the scanner below). -/
def isSplitlinesBreak (c : Char) : Bool :=
  c = '\n' || c = '\r' || c = '\x0b' || c = '\x0c' || c = '\x1c' ||
    c = '\x1d' || c = '\x1e' || c = '\x85' || c = '\u2028' || c = '\u2029'

/-- Worker for `pySplitlines`, accumulating the current line reversed. -/
def pySplitlinesAux : List Char → List Char → List String
  | [], [] => []
  | [], acc => [String.mk acc.reverse]
  | '\r' :: '\n' :: cs, acc => String.mk acc.reverse :: pySplitlinesAux cs []
  | c :: cs, acc =>
      if isSplitlinesBreak c then String.mk acc.reverse :: pySplitlinesAux cs []
      else pySplitlinesAux cs (c :: acc)

/-- Python `str.splitlines()` (no trailing empty line, `''` gives `[]`). -/
def pySplitlines (s : String) : List String :=
  pySplitlinesAux s.data []

/-- Python `str.rstrip()` on ASCII whitespace. -/
def pyRstrip (s : String) : String :=
  String.mk (s.data.reverse.dropWhile pyIsSpace).reverse

/-- Job-section handling of one line of a plain segment:
`re.match(' *- *(.*)$', jobline)` rebuilt as `texthtmlstr('- …\n')` with
`'<br />'` appended to its HTML, otherwise `texthtmlstr(jobline)`. -/
def joblineNode (line : String) : Node :=
  match line.data.dropWhile (fun c => c = ' ') with
  | '-' :: tail =>
      let g := String.mk (tail.dropWhile (fun c => c = ' '))
      let t := "- " ++ g ++ "\n"
      { text := t, html := htmlEscape t ++ "<br />" }
  | _ => texthtmlstr line

/-- Emission of one resolved segment (the body of the final loop of
`parsedstr.__init__`), with the `raise ValueError('Segment type
unknown.')` of its `else` branch as the error case. -/
def emitSeg (job : Bool) (seg : Segment) : Except String (List Node) :=
  if seg.type = "p" then .ok [parabreakstr false]
  else if seg.type = "u" then .ok [urlstr (seg.value.getD "")]
  else if seg.type = "t" then
    if job then .ok ((pySplitlines (seg.value.getD "")).map joblineNode)
    else .ok [texthtmlstr (seg.value.getD "")]
  else .error "Segment type unknown."

/-- Emission loop over the resolved segments, accumulating
`texthtml_strings` in order and propagating the raise. -/
def emitAll (job : Bool) : List Segment → Except String (List Node)
  | [] => .ok []
  | seg :: rest =>
      match emitSeg job seg with
      | .error e => .error e
      | .ok ns =>
          match emitAll job rest with
          | .error e => .error e
          | .ok more => .ok (ns ++ more)

/-- The `job_opp_boilerplate` global settings constant. -/
def jobOppBoilerplate : String :=
  "\nFor those interested in increasing excellence and diversity in their organizations, a list of resources and advice is here:\n\nhttps://aas.org/comms/cswa/resources/Diversity#howtoincrease\n\n"

/-- Boilerplate prepending at the top of `parsedstr.__init__`:
`if job: s = job_opp_boilerplate + s`. -/
def jobPrep (job : Bool) (s : String) : String :=
  if job then jobOppBoilerplate ++ s else s

/-- Class `parsedstr`: classify the (possibly boilerplate-prepended)
string and emit the node list, or the `ValueError` message. -/
def parsedstr (s : String) (job : Bool) : Except String (List Node) :=
  emitAll job (resolveSegments (jobPrep job s))

/-- Method `mixedstr.print_text`: concatenation of the plain parts. -/
def printText (ns : List Node) : String :=
  String.join (ns.map Node.text)

/-- Method `mixedstr.print_html`: concatenation of the HTML parts inside
a paragraph container. -/
def printHtml (ns : List Node) : String :=
  "<p>" ++ String.join (ns.map Node.html) ++ "</p>"

/-- Substring test: `needle` occurs contiguously inside `hay` (used to
state the containment scenarios). -/
def hasSub : List Char → List Char → Bool
  | hay, needle =>
      needle.isPrefixOf hay ||
        match hay with
        | [] => false
        | _ :: t => hasSub t needle

/-- Substring test on strings. -/
def strContains (hay needle : String) : Bool :=
  hasSub hay.data needle.data

/-- Split on every newline, as the line structure that `re.MULTILINE`
anchors (`^` at position 0 and after each `'\n'`, `$` and `.` stopping
at `'\n'`): the `'\n'`-free chunks of the string, in order. -/
def splitNl : List Char → List (List Char)
  | [] => [[]]
  | '\n' :: rest => [] :: splitNl rest
  | c :: rest =>
      match splitNl rest with
      | l :: ls => (c :: l) :: ls
      | [] => [[c]]

/-- Case-insensitive prefix test (Python `re.IGNORECASE` on ASCII); the
pattern is given lowercase. -/
def ciPrefixL (pat : String) (cs : List Char) : Bool :=
  pat.data.isPrefixOf (cs.map Char.toLower)

/-- `re.search('^PAT: ?(.*)$', blk, re.MULTILINE)` for a case-sensitive
field pattern: the first line beginning with the literal pattern, with
the line remainder after it returned (the caller drops the optional
space of `' ?'`). -/
def searchLineCS (pat : String) (blk : String) : Option (List Char) :=
  ((splitNl blk.data).find? (fun l => pat.data.isPrefixOf l)).map
    (fun l => l.drop pat.data.length)

/-- The same search with `re.IGNORECASE`, for `title:` and `from:`. -/
def searchLineCI (pat : String) (blk : String) : Option (List Char) :=
  ((splitNl blk.data).find? (fun l => ciPrefixL pat l)).map
    (fun l => l.drop pat.data.length)

/-- The optional-space `' ?'` after a field's colon: one leading space,
if present, is consumed greedily. -/
def dropOptSpace : List Char → List Char
  | ' ' :: r => r
  | l => l

/-- Rejoin of lines with newlines (inverse of `splitNl`), used to
recover the rest-of-string suffix from a line position. -/
def joinNl : List (List Char) → List Char
  | [] => []
  | [l] => l
  | l :: ls => l ++ '\n' :: joinNl ls

/-- Body search `re.search('^text:\s*(.*)', blk, MULTILINE | IGNORECASE
| DOTALL)`: at the first line beginning `text:` (case-insensitive), the
greedy `\s*` eats the maximal whitespace run and the DOTALL `(.*)`
takes everything to the end of the block. -/
def findBodyLines : List (List Char) → Option (List Char)
  | [] => none
  | l :: ls =>
      if ciPrefixL "text:" l then
        some (((joinNl (l :: ls)).drop 5).dropWhile pyIsSpace)
      else findBodyLines ls

/-- Body search over a block (see `findBodyLines`). -/
def findBody (blk : String) : Option (List Char) :=
  findBodyLines (splitNl blk.data)

/-- The phrase of the job-section test, lowercase. -/
def jobPhrase : String := "job opportunities"

/-- One attempt of `' *Job Opportunities *'` at a fixed position: the
greedy `' *'` skips leading spaces (backtracking cannot help, since the
literal starts with a letter), then the literal must match
case-insensitively; the trailing `' *'` always matches. -/
def jobMatchAt (cs : List Char) : Bool :=
  ciPrefixL jobPhrase (cs.dropWhile (fun c => c = ' '))

/-- `re.search(' *Job Opportunities *', title, re.IGNORECASE) is not
None`: the pattern is tried at every position of the title. -/
def reSearchJob : List Char → Bool
  | [] => jobMatchAt []
  | c :: cs => jobMatchAt (c :: cs) || reSearchJob cs

/-- `re.match(' *$', itemtext)`: anchored at the start, it consumes
leading spaces and requires `$`, which holds at the end of the string
or just before a single final newline.  So it succeeds exactly when
dropping the leading spaces leaves nothing or one newline. -/
def pyMatchAllSpaceDollar (blk : String) : Bool :=
  blk.data.dropWhile (fun c => c = ' ') = [] ||
    blk.data.dropWhile (fun c => c = ' ') = ['\n']

/-- One parsed item: `{'title':…, 'from':…, 'text':…}` with the body
already classified into nodes. -/
structure Item where
  title : String
  fromField : Option String
  text : List Node
deriving DecidableEq, Repr

/-- Outcome of the per-block loop body of `aaswitems.__init__`: the
block is skipped as blank, consumed as the image header (with the
stored URL and caption, if any), parsed into an item, or aborts with a
`ValueError` message. -/
inductive BlockOutcome where
  | skip : BlockOutcome
  | header : Option String → Option Node → BlockOutcome
  | item : Item → BlockOutcome
  | error : String → BlockOutcome
deriving DecidableEq, Repr

/-- Message of `raise ValueError(f'Title could not be found …')`. -/
def titleMsg (blk : String) : String :=
  String.mk ("Title could not be found for the following item:\n".data ++
    blk.data ++ ['\n'])

/-- Message of `raise ValueError(f'Text body could not be found …')`. -/
def textMsg (blk : String) : String :=
  String.mk ("Text body could not be found for the following item:\n".data ++
    blk.data ++ ['\n'])

/-- The per-block loop body of `aaswitems.__init__`: skip blank blocks,
consume an `img-url:` block as the image header (storing the URL and
caption only when the URL value is not blank), otherwise extract
`title:` (required), `from:` (optional) and `text:` (required) and
classify the body with the job flag. -/
def processBlock (blk : String) : BlockOutcome :=
  if pyMatchAllSpaceDollar blk then .skip
  else
    match searchLineCS "img-url:" blk with
    | some rawUrl =>
        let v := dropOptSpace rawUrl
        if v.all (fun c => c = ' ') then .header none none
        else
          .header (some (String.mk v))
            ((searchLineCS "img-caption:" blk).map
              (fun rawCap => texthtmlstr (String.mk (dropOptSpace rawCap))))
    | none =>
        match searchLineCI "title:" blk with
        | none => .error (titleMsg blk)
        | some rawTitle =>
            let title := pyRstrip (String.mk (dropOptSpace rawTitle))
            let fromField := (searchLineCI "from:" blk).map
              (fun rawFrom => String.mk (dropOptSpace rawFrom))
            match findBody blk with
            | none => .error (textMsg blk)
            | some rawBody =>
                let isjob := reSearchJob title.data
                match parsedstr (pyRstrip (String.mk rawBody)) isjob with
                | .error e => .error e
                | .ok ns => .item ⟨title, fromField, ns⟩

/-- `re.split(r'---', filetext)`: split on every literal `---`,
scanning left to right without overlap. -/
def splitSep : List Char → List (List Char)
  | '-' :: '-' :: '-' :: rest => [] :: splitSep rest
  | c :: rest =>
      match splitSep rest with
      | l :: ls => (c :: l) :: ls
      | [] => [[c]]
  | [] => [[]]

/-- Accumulation of items over the blocks of one document, aborting on
the first raised error (header and blank blocks produce no item). -/
def collectBlocks : List String → Except String (List Item)
  | [] => .ok []
  | b :: bs =>
      match processBlock b with
      | .error e => .error e
      | .item it =>
          match collectBlocks bs with
          | .error e => .error e
          | .ok more => .ok (it :: more)
      | _ => collectBlocks bs

/-- Item parsing of one document text (the per-`filetext` body of the
loop in `aaswitems.__init__`): split on `---` and process each block. -/
def parseDocument (doc : String) : Except String (List Item) :=
  collectBlocks ((splitSep doc.data).map String.mk)

/-- `re.match('\.txt$', input_fname)`: anchored at position 0, the
pattern requires the whole string to be `.txt`, or `.txt` followed by a
single final newline (the `$` tolerance). -/
def clobberCheck (fname : String) : Bool :=
  fname = ".txt" || fname = ".txt\n"

/-- Position of `$` reachable by `\S+` for `re.sub('(\.\S+)?$', …)`:
the end of the string, or just before a single final newline. -/
def subStopIdx (cs : List Char) : Nat :=
  if cs.getLast? = some '\n' then cs.length - 1 else cs.length

/-- Match test of `\.\S+$` at position `p`: a dot followed by at least
one non-whitespace character reaching exactly the `$` position. -/
def extMatchAt (cs : List Char) (stop p : Nat) : Bool :=
  cs.get? p = some '.' && p + 2 ≤ stop &&
    ((cs.drop (p + 1)).take (stop - (p + 1))).all (fun c => !(pyIsSpace c))

/-- First position at which `(\.\S+)?$` matches with a nonempty group;
if none, the empty match at the `$` position is used.  The first
argument is structural-recursion fuel bounding the number of positions
still to try (`pySubExt` passes `stop + 1`, so it never runs out). -/
def firstExtPos (cs : List Char) (stop : Nat) : Nat → Nat → Nat
  | 0, _ => stop
  | fuel + 1, p =>
      if stop ≤ p then stop
      else if extMatchAt cs stop p then p
      else firstExtPos cs stop fuel (p + 1)

/-- `re.sub('(\.\S+)?$', ext, fname, count=1)`: replace the extension
beginning at the first dot whose suffix is non-whitespace, or append
`ext` at the end when there is no such dot. -/
def pySubExt (ext : String) (fname : String) : String :=
  let cs := fname.data
  let stop := subStopIdx cs
  let p := firstExtPos cs stop (stop + 1) 0
  String.mk (cs.take p ++ ext.data ++ cs.drop stop)

/-- Outcome of the `__main__` block after argument handling: either the
clobber warning with `exit(1)` before any write, or the two output
files that get written. -/
inductive MainOutcome where
  | abortClobberWarning : MainOutcome
  | writes : String → String → MainOutcome
deriving DecidableEq, Repr

/-- The `__main__` file-name logic: compute the `.html` output name,
abort if `re.match('\.txt$', input_fname)` fires, else compute the
`.txt` output name and write both. -/
def mainOutcome (fname : String) : MainOutcome :=
  if clobberCheck fname then .abortClobberWarning
  else .writes (pySubExt ".html" fname) (pySubExt ".txt" fname)

/-- The tiling property claimed of the resolved segment list: sorted by
start, the segments chain exactly from `0` to the length (contiguous,
non-overlapping, no gaps). -/
def chainCover (n : Nat) : Nat → List Segment → Bool
  | p, [] => p == n
  | p, seg :: rest => seg.start == p && chainCover n seg.stop rest

/-- Concatenation of the source substrings covered by the segments. -/
def concatSlices (s : String) (l : List Segment) : String :=
  String.join (l.map (fun seg => strSlice s seg.start seg.stop))

/-- The full tiling claim for a segment list over a body string: sorted
by start it chains over `[0, len s)` and the covered substrings
concatenate back to `s`. -/
def tilesSpec (segs : List Segment) (s : String) : Bool :=
  chainCover s.length 0 (sortByStart segs) &&
    concatSlices s (sortByStart segs) == s

/-- Spec-worded job-title predicate, for comparison with the code's
`reSearchJob`: the title matches the literal phrase "Job Opportunities"
case-insensitively with surrounding whitespace tolerated, i.e. the
title stripped of surrounding whitespace and lowercased is exactly the
phrase. -/
def specJobTitleMatch (t : String) : Bool :=
  ((t.data.dropWhile pyIsSpace).reverse.dropWhile pyIsSpace).reverse.map
    Char.toLower = jobPhrase.data

/-- Membership after stable insertion comes from the inserted element
or the original list. -/
theorem mem_insertSeg {a x : Segment} :
    ∀ {l : List Segment}, a ∈ insertSeg x l → a = x ∨ a ∈ l := by
  intro l
  induction l with
  | nil => simp [insertSeg]
  | cons y ys ih =>
      simp only [insertSeg]
      split
      · intro h
        rcases List.mem_cons.1 h with h | h
        · exact Or.inr (List.mem_cons.2 (Or.inl h))
        · rcases ih h with h | h
          · exact Or.inl h
          · exact Or.inr (List.mem_cons.2 (Or.inr h))
      · intro h
        rcases List.mem_cons.1 h with h | h
        · exact Or.inl h
        · exact Or.inr h

/-- Membership in the insertion-sort fold comes from the accumulator or
the remaining input. -/
theorem mem_foldl_insertSeg :
    ∀ (l acc : List Segment) (a : Segment),
      a ∈ l.foldl (fun acc x => insertSeg x acc) acc → a ∈ acc ∨ a ∈ l := by
  intro l
  induction l with
  | nil => intro acc a h; exact Or.inl h
  | cons x xs ih =>
      intro acc a h
      rcases ih (insertSeg x acc) a h with h | h
      · rcases mem_insertSeg h with h | h
        · exact Or.inr (List.mem_cons.2 (Or.inl h))
        · exact Or.inl h
      · exact Or.inr (List.mem_cons.2 (Or.inr h))

/-- Sorting by start does not introduce segments. -/
theorem mem_sortByStart {a : Segment} {l : List Segment}
    (h : a ∈ sortByStart l) : a ∈ l := by
  rcases mem_foldl_insertSeg l [] a h with h | h
  · cases h
  · exact h

/-- Every gap-filler segment has type `'t'` and carries the slice of
the body between its own offsets as its value. -/
theorem gapSegs_mem (s : String) :
    ∀ (l : List Segment) (cur : Nat) (a : Segment), a ∈ gapSegs s cur l →
      a.type = "t" ∧ a.value = some (strSlice s a.start a.stop) := by
  intro l
  induction l with
  | nil =>
      intro cur a h
      simp only [gapSegs] at h
      split at h
      · rcases List.mem_singleton.1 h with rfl
        exact ⟨rfl, rfl⟩
      · cases h
  | cons seg rest ih =>
      intro cur a h
      simp only [gapSegs] at h
      rcases List.mem_append.1 h with h | h
      · split at h
        · rcases List.mem_singleton.1 h with rfl
          exact ⟨rfl, rfl⟩
        · cases h
      · exact ih seg.stop a h

/-- Every segment of the resolved list is a paragraph break, a URL, or
a gap-filler plain-text segment valued with its own slice of the body. -/
theorem resolve_kinds (s : String) (seg : Segment)
    (h : seg ∈ resolveSegments s) :
    seg.type = "p" ∨ seg.type = "u" ∨
      (seg.type = "t" ∧ seg.value = some (strSlice s seg.start seg.stop)) := by
  unfold resolveSegments at h
  split at h
  · cases h
  · rcases List.mem_append.1 (mem_sortByStart h) with h | h
    · rcases List.mem_append.1 (mem_sortByStart h) with h | h
      · rcases List.mem_map.1 h with ⟨sp, _, rfl⟩
        exact Or.inl rfl
      · rcases List.mem_map.1 h with ⟨sp, _, rfl⟩
        exact Or.inr (Or.inl rfl)
    · exact Or.inr (Or.inr (gapSegs_mem s _ 0 seg h))

/-- A list of segments whose types are all known is emitted without the
unknown-kind raise. -/
theorem emitAll_isOk (job : Bool) :
    ∀ l : List Segment,
      (∀ seg ∈ l, seg.type = "p" ∨ seg.type = "u" ∨ seg.type = "t") →
      ∃ ns, emitAll job l = .ok ns := by
  intro l
  induction l with
  | nil => intro _; exact ⟨[], rfl⟩
  | cons seg rest ih =>
      intro h
      have hseg := h seg (List.mem_cons.2 (Or.inl rfl))
      obtain ⟨more, hmore⟩ := ih (fun a ha => h a (List.mem_cons.2 (Or.inr ha)))
      have : ∃ ns, emitSeg job seg = .ok ns := by
        rcases hseg with ht | ht | ht
        · exact ⟨[parabreakstr false], by simp [emitSeg, ht]⟩
        · exact ⟨[urlstr (seg.value.getD "")], by simp [emitSeg, ht]⟩
        · cases job
          · exact ⟨[texthtmlstr (seg.value.getD "")], by simp [emitSeg, ht]⟩
          · exact ⟨(pySplitlines (seg.value.getD "")).map joblineNode,
              by simp [emitSeg, ht]⟩
      obtain ⟨ns, hns⟩ := this
      exact ⟨ns ++ more, by simp [emitAll, hns, hmore]⟩

/-- Lines delivered by `splitNl` only contain characters of the source
string. -/
theorem mem_splitNl_subset :
    ∀ {cs : List Char} {l : List Char} {c : Char},
      l ∈ splitNl cs → c ∈ l → c ∈ cs := by
  intro cs
  induction cs with
  | nil =>
      intro l c hl hc
      simp [splitNl] at hl
      subst hl
      cases hc
  | cons x xs ih =>
      intro l c hl hc
      by_cases hx : x = '\n'
      · subst hx
        simp only [splitNl] at hl
        rcases List.mem_cons.1 hl with rfl | hl
        · cases hc
        · exact List.mem_cons.2 (Or.inr (ih hl hc))
      · rw [show splitNl (x :: xs) = match splitNl xs with
              | l :: ls => (x :: l) :: ls
              | [] => [[x]] by
            cases xs <;> simp [splitNl, hx]] at hl
        rcases hsplit : splitNl xs with _ | ⟨l₀, ls⟩
        · rw [hsplit] at hl
          rcases List.mem_singleton.1 hl with rfl
          rcases List.mem_singleton.1 hc with rfl
          exact List.mem_cons.2 (Or.inl rfl)
        · rw [hsplit] at hl
          rcases List.mem_cons.1 hl with rfl | hl
          · rcases List.mem_cons.1 hc with rfl | hc
            · exact List.mem_cons.2 (Or.inl rfl)
            · exact List.mem_cons.2 (Or.inr (ih (hsplit ▸ List.mem_cons.2 (Or.inl rfl)) hc))
          · exact List.mem_cons.2 (Or.inr (ih (hsplit ▸ List.mem_cons.2 (Or.inr hl)) hc))

/-- A block skipped by `re.match(' *$', …)` consists of spaces and
newlines only. -/
theorem allSpaceNl_of_pyMatch {blk : String}
    (h : pyMatchAllSpaceDollar blk = true) :
    ∀ c ∈ blk.data, c = ' ' ∨ c = '\n' := by
  intro c hc
  unfold pyMatchAllSpaceDollar at h
  rw [Bool.or_eq_true, decide_eq_true_eq, decide_eq_true_eq] at h
  rw [← List.takeWhile_append_dropWhile (p := fun c => decide (c = ' '))
    (l := blk.data)] at hc
  rcases List.mem_append.1 hc with hc | hc
  · exact Or.inl (by simpa using List.mem_takeWhile_imp hc)
  · rcases h with h | h <;> rw [h] at hc
    · cases hc
    · rcases List.mem_singleton.1 hc with rfl
      exact Or.inr rfl

/-- Body search fails exactly when no line begins `text:`
case-insensitively. -/
theorem findBodyLines_eq_none {ls : List (List Char)}
    (h : ∀ l ∈ ls, ciPrefixL "text:" l = false) : findBodyLines ls = none := by
  induction ls with
  | nil => rfl
  | cons l ls ih =>
      have hl := h l (List.mem_cons.2 (Or.inl rfl))
      simp only [findBodyLines, hl]
      exact ih (fun a ha => h a (List.mem_cons.2 (Or.inr ha)))

/-- C1: the claim asserts that for every body string the resolved
segment list tiles `[0, len S)` exactly.  The early `return` of
`parsedstr.__init__` (taken when no paragraph break and no URL is
found) leaves the segment list empty for the body `"hello"`, whose
five characters are therefore not covered at all. -/
theorem c1_resolved_list_fails_to_tile :
    resolveSegments "hello" = [] ∧
    tilesSpec (resolveSegments "hello") "hello" = false ∧
    "hello".length = 5 :=
  ⟨rfl, rfl, rfl⟩

/-- C2: the claim asserts that a body with zero URL spans and zero
blank-line spans yields a single plain-text node spanning the whole
body.  The code instead returns an empty renderer for such a body
(`"hello"`), dropping the text. -/
theorem c2_plain_body_yields_empty_renderer :
    parsedstr "hello" false = .ok ([] : List Node) ∧
    ([] : List Node) ≠ [texthtmlstr "hello"] :=
  ⟨rfl, by decide⟩

/-- C3: the claim asserts that input filename `draft.txt` aborts with a
warning before writing.  Since `re.match('\.txt$', …)` anchors at the
start of the string, the check misses `draft.txt`, and the program
proceeds to write `draft.html` and then `draft.txt` — the input file
itself. -/
theorem c3_draft_txt_not_aborted :
    mainOutcome "draft.txt" = .writes "draft.html" "draft.txt" ∧
    clobberCheck "draft.txt" = false :=
  ⟨rfl, rfl⟩

/-- C5: the claim asserts that every whitespace-only block is skipped.
The skip test `re.match(' *$', …)` only accepts spaces with at most one
final newline, so the all-whitespace block `"\n\n"` is not skipped and
raises the missing-title `ValueError` instead. -/
theorem c5_whitespace_block_not_skipped :
    processBlock "\n\n" = .error (titleMsg "\n\n") ∧
    "\n\n".data.all pyIsSpace = true :=
  ⟨rfl, rfl⟩

/-- The input block of the C7 scenario. -/
def c7block : String := "title: Test\ntext: Visit http://example.com today."

/-- The single item that parsing the C7 scenario block yields. -/
def c7item : Item :=
  ⟨"Test", none,
   [texthtmlstr "Visit ", urlstr "http://example.com", texthtmlstr " today."]⟩

/-- C7: parsing the block `title: Test\ntext: Visit http://example.com
today.` yields exactly one item whose HTML rendering contains the
anchor for `http://example.com` and whose plain rendering contains the
URL literally. -/
theorem c7_url_item_scenario :
    parseDocument c7block = .ok [c7item] ∧
    strContains (printHtml c7item.text)
      "<a href=\"http://example.com\">http://example.com</a>" = true ∧
    strContains (printText c7item.text) "http://example.com" = true :=
  ⟨rfl, rfl, rfl⟩

/-- C9: for every input string and job flag, every resolved segment has
one of the three known kinds, so emission always succeeds and the
`Segment type unknown.` raise is unreachable. -/
theorem c9_unknown_segment_kind_unreachable (s : String) (job : Bool) :
    ∃ ns, parsedstr s job = .ok ns := by
  show ∃ ns, emitAll job (resolveSegments (jobPrep job s)) = .ok ns
  apply emitAll_isOk
  intro seg h
  rcases resolve_kinds _ seg h with ht | ht | ht
  · exact Or.inl ht
  · exact Or.inr (Or.inl ht)
  · exact Or.inr (Or.inr ht.1)

/-- C6 (amended): with the job flag false, every plain-text segment of
the resolved list is emitted as a single node whose plain-text
rendering is exactly the original substring of the body covered by the
segment, unescaped; escaping only affects the HTML side. -/
theorem c6_plain_segment_text_preserved (s : String) (seg : Segment)
    (h : seg ∈ resolveSegments s) (ht : seg.type = "t") :
    emitSeg false seg = .ok [texthtmlstr (strSlice s seg.start seg.stop)] ∧
    (texthtmlstr (strSlice s seg.start seg.stop)).text =
      strSlice s seg.start seg.stop := by
  rcases resolve_kinds s seg h with hp | hu | ⟨_, hv⟩
  · exact absurd (ht.symm.trans hp) (by decide)
  · exact absurd (ht.symm.trans hu) (by decide)
  · exact ⟨by simp [emitSeg, ht, hv], rfl⟩

/-- Witness for the amended C6 theorem at the body `"a\n\nb"` and its
first gap segment. -/
theorem c6_plain_segment_text_preserved_witness :
    ((⟨0, 1, "t", some "a"⟩ : Segment) ∈ resolveSegments "a\n\nb") ∧
    emitSeg false ⟨0, 1, "t", some "a"⟩ =
      .ok [texthtmlstr (strSlice "a\n\nb" 0 1)] :=
  ⟨by decide,
   (c6_plain_segment_text_preserved "a\n\nb" ⟨0, 1, "t", some "a"⟩
      (by decide) rfl).1⟩

/-- The plain-text segment covering the first boilerplate paragraph
when a job-section body is classified (the body here is empty, so the
classified string is exactly the boilerplate). -/
def c6seg : Segment := ⟨0, 124, "t", some (strSlice (jobPrep true "") 0 124)⟩

set_option maxRecDepth 40000 in
/-- C6 (counterexample): with the job flag true, the plain-text
segment covering the boilerplate's first paragraph is emitted through
the per-line job rewriting, whose concatenated plain text drops the
newline structure of the covered substring — so the emitted plain text
is not the original substring. -/
theorem c6_job_segment_alters_text :
    c6seg ∈ resolveSegments (jobPrep true "") ∧
    c6seg.type = "t" ∧
    ∃ ns, emitSeg true c6seg = .ok ns ∧
      printText ns ≠ strSlice (jobPrep true "") c6seg.start c6seg.stop := by
  refine ⟨by decide, rfl,
    (pySplitlines (strSlice (jobPrep true "") 0 124)).map joblineNode,
    rfl, by decide⟩

/-- C4: a block that is not whitespace-only and contains no line
beginning `img-url:` raises the missing-field `ValueError` — whose
message contains the raw block text — when no line of the block begins
`title:` case-insensitively, and likewise when no line begins `text:`
case-insensitively. -/
theorem c4_missing_field_raises (blk : String)
    (hnws : blk.data.all pyIsSpace = false)
    (himg : ∀ l ∈ splitNl blk.data, "img-url:".data.isPrefixOf l = false)
    (hmiss : (∀ l ∈ splitNl blk.data, ciPrefixL "title:" l = false) ∨
             (∀ l ∈ splitNl blk.data, ciPrefixL "text:" l = false)) :
    ∃ m, processBlock blk = .error m ∧ blk.data <:+: m.data := by
  have hws : pyMatchAllSpaceDollar blk = false := by
    by_contra hcon
    rw [Bool.not_eq_false] at hcon
    have hall : blk.data.all pyIsSpace = true := by
      rw [List.all_eq_true]
      intro c hc
      rcases allSpaceNl_of_pyMatch hcon c hc with rfl | rfl <;> rfl
    rw [hall] at hnws
    cases hnws
  have himgn : searchLineCS "img-url:" blk = none := by
    have : (splitNl blk.data).find?
        (fun l => "img-url:".data.isPrefixOf l) = none :=
      List.find?_eq_none.2 (fun x hx => by simp [himg x hx])
    simp [searchLineCS, this]
  rcases hmiss with hmiss | hmiss
  · have htn : searchLineCI "title:" blk = none := by
      have : (splitNl blk.data).find? (fun l => ciPrefixL "title:" l) = none :=
        List.find?_eq_none.2 (fun x hx => by simp [hmiss x hx])
      simp [searchLineCI, this]
    refine ⟨titleMsg blk, by simp [processBlock, hws, himgn, htn], ?_⟩
    exact ⟨"Title could not be found for the following item:\n".data, ['\n'], rfl⟩
  · have hbn : findBody blk = none := findBodyLines_eq_none hmiss
    rcases htq : searchLineCI "title:" blk with _ | rt
    · refine ⟨titleMsg blk, by simp [processBlock, hws, himgn, htq], ?_⟩
      exact ⟨"Title could not be found for the following item:\n".data, ['\n'], rfl⟩
    · refine ⟨textMsg blk, by simp [processBlock, hws, himgn, htq, hbn], ?_⟩
      exact ⟨"Text body could not be found for the following item:\n".data, ['\n'], rfl⟩

/-- Witness for C4: the block `hello` has no title line and raises the
title error; the block `title: A` has a title but no text line and
raises the body error.  Both messages contain the block text. -/
theorem c4_missing_field_raises_witness :
    (∃ m, processBlock "hello" = .error m ∧ "hello".data <:+: m.data) ∧
    (∃ m, processBlock "title: A" = .error m ∧ "title: A".data <:+: m.data) :=
  ⟨c4_missing_field_raises "hello" (by decide) (by decide) (Or.inl (by decide)),
   c4_missing_field_raises "title: A" (by decide) (by decide)
     (Or.inr (by decide))⟩

/-- C10: every block containing a line beginning `img-url:` is consumed
as the image header: it never becomes an item and never raises the
missing-field error, even when `title:` or `text:` lines are also
present; and when the value after `img-url:` is blank, nothing is
stored at all. -/
theorem c10_imgurl_block_is_header (blk : String)
    (h : ∃ l ∈ splitNl blk.data, "img-url:".data.isPrefixOf l = true) :
    (∃ u cap, processBlock blk = .header u cap) ∧
    (∀ v, searchLineCS "img-url:" blk = some v →
      (dropOptSpace v).all (fun c => c = ' ') = true →
      processBlock blk = .header none none) := by
  obtain ⟨l0, hl0, hpre⟩ := h
  have hws : pyMatchAllSpaceDollar blk = false := by
    by_contra hcon
    rw [Bool.not_eq_false] at hcon
    have hp : "img-url:".data <+: l0 := List.isPrefixOf_iff_prefix.1 hpre
    obtain ⟨t, ht⟩ := hp
    have hi : 'i' ∈ blk.data := by
      refine mem_splitNl_subset hl0 ?_
      rw [← ht]
      exact List.mem_append.2 (Or.inl (by decide))
    rcases allSpaceNl_of_pyMatch hcon 'i' hi with h' | h' <;>
      exact absurd h' (by decide)
  obtain ⟨lf, hlf⟩ : ∃ lf, (splitNl blk.data).find?
      (fun l => "img-url:".data.isPrefixOf l) = some lf :=
    Option.isSome_iff_exists.1 (List.find?_isSome.2 ⟨l0, hl0, hpre⟩)
  have hs : searchLineCS "img-url:" blk = some (lf.drop 8) := by
    simp [searchLineCS, hlf]
  constructor
  · by_cases hb : (dropOptSpace (lf.drop 8)).all (fun c => c = ' ') = true
    · refine ⟨none, none, ?_⟩
      simp [processBlock, hws, hs]
      intro x hx
      simpa using List.all_eq_true.1 hb x hx
    · refine ⟨some (String.mk (dropOptSpace (lf.drop 8))),
        (searchLineCS "img-caption:" blk).map
          (fun rawCap => texthtmlstr (String.mk (dropOptSpace rawCap))), ?_⟩
      simp [processBlock, hws, hs]
      simp only [List.all_eq_true, decide_eq_true_eq] at hb
      push_neg at hb
      exact hb
  · intro v hv hblank
    rw [hs] at hv
    injection hv with hv
    subst hv
    simp [processBlock, hws, hs]
    intro x hx
    simpa using List.all_eq_true.1 hblank x hx

/-- Witness for C10 at a header block whose `img-url:` value is blank
and which also contains `title:` and `text:` lines: it is consumed as a
header and nothing is stored. -/
theorem c10_imgurl_block_is_header_witness :
    (∃ l ∈ splitNl "img-url: \ntitle: x\ntext: y".data,
      "img-url:".data.isPrefixOf l = true) ∧
    (∃ u cap, processBlock "img-url: \ntitle: x\ntext: y" = .header u cap) :=
  ⟨⟨"img-url: ".data, by decide, by decide⟩,
   (c10_imgurl_block_is_header "img-url: \ntitle: x\ntext: y"
      ⟨"img-url: ".data, by decide, by decide⟩).1⟩

/-- The job-title search succeeds exactly when the pattern matches at
some suffix position of the title (the positions `re.search` tries). -/
theorem reSearchJob_iff_suffix (l : List Char) :
    reSearchJob l = true ↔ ∃ l', l' <:+ l ∧ jobMatchAt l' = true := by
  induction l with
  | nil =>
      constructor
      · intro h
        exact ⟨[], List.suffix_refl [], h⟩
      · rintro ⟨l', hsuf, hm⟩
        rw [List.suffix_nil.1 hsuf] at hm
        exact hm
  | cons c cs ih =>
      simp only [reSearchJob, Bool.or_eq_true, ih]
      constructor
      · rintro (h | ⟨l', hsuf, hm⟩)
        · exact ⟨c :: cs, List.suffix_refl _, h⟩
        · exact ⟨l', hsuf.trans (List.suffix_cons c cs), hm⟩
      · rintro ⟨l', hsuf, hm⟩
        rcases List.suffix_cons_iff.1 hsuf with rfl | hsuf
        · exact Or.inl hm
        · exact Or.inr ⟨l', hsuf, hm⟩

/-- C8 (amended): the job flag computed by the item parser is set
exactly when the title contains the phrase "Job Opportunities"
case-insensitively as a substring — not only when the whole title is
that phrase: under `re.search` the pattern's optional surrounding
spaces impose no constraint. -/
theorem c8_job_flag_iff_contains (t : String) :
    reSearchJob t.data = true ↔
      jobPhrase.data <:+: t.data.map Char.toLower := by
  rw [reSearchJob_iff_suffix]
  constructor
  · rintro ⟨l', hsuf, hm⟩
    unfold jobMatchAt ciPrefixL at hm
    have hp := List.isPrefixOf_iff_prefix.1 hm
    refine List.infix_iff_prefix_suffix.2
      ⟨(l'.dropWhile (fun c => c = ' ')).map Char.toLower, hp, ?_⟩
    exact (List.IsSuffix.map Char.toLower
      (List.dropWhile_suffix _)).trans (List.IsSuffix.map Char.toLower hsuf)
  · intro hinf
    obtain ⟨tt, hpre, hsuf⟩ := List.infix_iff_prefix_suffix.1 hinf
    have hdrop := List.suffix_iff_eq_drop.1 hsuf
    rw [← List.map_drop] at hdrop
    refine ⟨t.data.drop ((t.data.map Char.toLower).length - tt.length),
      List.drop_suffix _ t.data, ?_⟩
    rcases hd : t.data.drop ((t.data.map Char.toLower).length - tt.length)
      with _ | ⟨c, cs⟩
    · rw [hd] at hdrop
      simp only [List.map_nil] at hdrop
      rw [hdrop] at hpre
      exact absurd (List.prefix_nil.1 hpre) (by decide)
    · have hmap : tt = Char.toLower c :: cs.map Char.toLower := by
        rw [hdrop, hd]
        rfl
      obtain ⟨t2, ht2⟩ := hpre
      have hc : Char.toLower c = 'j' := by
        rw [hmap, show jobPhrase.data = 'j' :: "ob opportunities".data from rfl,
          List.cons_append] at ht2
        exact (List.cons.injEq _ _ _ _ ▸ ht2 : _ ∧ _).1.symm
      have hcsp : c ≠ ' ' := by
        intro hsp
        rw [hsp] at hc
        exact absurd hc (by decide)
      unfold jobMatchAt ciPrefixL
      rw [List.dropWhile_cons, if_neg (by simp [hcsp]),
        List.isPrefixOf_iff_prefix, List.map_cons, ← hmap]
      exact ⟨t2, ht2⟩

/-- C8 (counterexample): the title `Two Job Opportunities` sets the job
flag although it is not the phrase "Job Opportunities" with only
surrounding whitespace — refuting the claimed equivalence between the
code's flag and the spec-worded title match. -/
theorem c8_flag_set_without_phrase_match :
    reSearchJob "Two Job Opportunities".data = true ∧
    specJobTitleMatch "Two Job Opportunities" = false :=
  ⟨rfl, rfl⟩

end Aasw
